import Mathlib

/-!
Shallow embedding of the WarpX core consisting of
`Source/BoundaryConditions/WarpX_PEC.cpp` (PEC boundary application) and
`Source/Initialization/InitSpaceChargeField.cpp` (space-charge field
initialization), together with theorems settling the specification's claims.

Conventions of the embedding:
* 3D build (`AMREX_SPACEDIM == 3`); an index vector is `Fin 3 → ℤ`.
* Field values (`amrex::Real`) are embedded as `ℚ`; the claims are exact
  index/sign/coefficient statements, not rounding statements.
* A grid (one `Array4` component, one channel) is a total function from
  index vectors to values; a pass over a tile box is a simultaneous
  pointwise update of the indices inside the box, matching the
  data-parallel per-cell independence stated by the spec (section 5).
* External collaborators (MLMG solver, charge depositor, velocity
  averager) are abstract function parameters.
-/

set_option maxHeartbeats 1600000

abbrev Idx : Type := Fin 3 → ℤ

abbrev Grid : Type := Idx → ℚ

/-- Boundary types relevant to this core: `{PEC, Periodic, Other}`
(spec section 3, BoundaryTable). -/
inductive FieldBoundaryType
  | PEC
  | Periodic
  | Other
  deriving DecidableEq

/-- The global boundary/domain data read by the boundary passes:
`domain_box.smallEnd()`, `domain_box.bigEnd()` (already coarsened when the
patch type is coarse), and `WarpX::field_boundary_lo/hi`. -/
structure PECParams where
  dom_lo : Idx
  dom_hi : Idx
  fbndry_lo : Fin 3 → FieldBoundaryType
  fbndry_hi : Fin 3 → FieldBoundaryType

/-- A rectangular index box (`amrex::Box`), by its low and high corners. -/
structure Box3 where
  lo : Idx
  hi : Idx

/-- Membership of an index vector in a box. -/
def Box3.contains (b : Box3) (iv : Idx) : Prop :=
  ∀ a : Fin 3, b.lo a ≤ iv a ∧ iv a ≤ b.hi a

instance (b : Box3) (iv : Idx) : Decidable (b.contains iv) := by
  unfold Box3.contains; infer_instance

/-- The 0/1 value carried by a staggering flag (`is_nodal` as an
`amrex::IntVect` entry: 1 for nodal, 0 for cell-centered). -/
def boolToInt (b : Bool) : ℤ := if b then 1 else 0

/-- Number of points past the low domain boundary along axis `a`
(`ig` for `iside == 0`): `dom_lo[a] - iv[a]`. -/
def igLo (P : PECParams) (iv : Idx) (a : Fin 3) : ℤ := P.dom_lo a - iv a

/-- Number of points past the high domain boundary along axis `a`
(`ig` for `iside == 1`): for a component nodal along `a` the outermost
valid node is `dom_hi[a] + 1`, for a cell-centered component it is
`dom_hi[a]`. -/
def igHi (P : PECParams) (nodal : Fin 3 → Bool) (iv : Idx) (a : Fin 3) : ℤ :=
  iv a - P.dom_hi a - boolToInt (nodal a)

/-- The index is strictly past a PEC low boundary along axis `a`. -/
def guardLo (P : PECParams) (iv : Idx) (a : Fin 3) : Prop :=
  P.fbndry_lo a = FieldBoundaryType.PEC ∧ 0 < igLo P iv a

/-- The index is strictly past a PEC high boundary along axis `a`. -/
def guardHi (P : PECParams) (nodal : Fin 3 → Bool) (iv : Idx) (a : Fin 3) : Prop :=
  P.fbndry_hi a = FieldBoundaryType.PEC ∧ 0 < igHi P nodal iv a

instance (P : PECParams) (iv : Idx) (a : Fin 3) : Decidable (guardLo P iv a) := by
  unfold guardLo; infer_instance

instance (P : PECParams) (nodal : Fin 3 → Bool) (iv : Idx) (a : Fin 3) :
    Decidable (guardHi P nodal iv a) := by
  unfold guardHi; infer_instance

/-- The index is a guard point past a PEC boundary along axis `a`. -/
def axGuard (P : PECParams) (nodal : Fin 3 → Bool) (iv : Idx) (a : Fin 3) : Prop :=
  guardLo P iv a ∨ guardHi P nodal iv a

instance (P : PECParams) (nodal : Fin 3 → Bool) (iv : Idx) (a : Fin 3) :
    Decidable (axGuard P nodal iv a) := by
  unfold axGuard; infer_instance

/-- The index lies exactly on a PEC boundary node along axis `a`
(only meaningful for a component that is nodal along `a`). -/
def axOnNode (P : PECParams) (nodal : Fin 3 → Bool) (iv : Idx) (a : Fin 3) : Prop :=
  nodal a = true ∧
    ((P.fbndry_lo a = FieldBoundaryType.PEC ∧ igLo P iv a = 0) ∨
     (P.fbndry_hi a = FieldBoundaryType.PEC ∧ igHi P nodal iv a = 0))

instance (P : PECParams) (nodal : Fin 3 → Bool) (iv : Idx) (a : Fin 3) :
    Decidable (axOnNode P nodal iv a) := by
  unfold axOnNode; infer_instance

/-- Mirror image of coordinate `a` across the PEC boundary plane: a
component nodal along `a` mirrors about the boundary node itself, a
cell-centered component mirrors the cell row `lo - d` onto `lo + d - 1`
(resp. `hi + d` onto `hi + 1 - d`), i.e. about the boundary face. -/
def axMirror (P : PECParams) (nodal : Fin 3 → Bool) (iv : Idx) (a : Fin 3) : ℤ :=
  if guardHi P nodal iv a then P.dom_hi a + 1 - igHi P nodal iv a
  else if guardLo P iv a then P.dom_lo a + igLo P iv a - (1 - boolToInt (nodal a))
  else iv a

/-- The image cell (`ijk_mirror`) of a guard index: mirrored along every
axis past a PEC boundary, unchanged along the others. -/
def pecMirror (P : PECParams) (nodal : Fin 3 → Bool) (iv : Idx) : Idx :=
  fun a => axMirror P nodal iv a

/-- Reflection sign accumulated over the axes along which the index is a
PEC guard point: each axis tangential to the component (`icomp ≠ a`)
contributes a factor `-1` (odd reflection), a normal axis contributes
`+1` (even reflection). -/
def pecSign (icomp : Fin 3) (P : PECParams) (nodal : Fin 3 → Bool) (iv : Idx) : ℚ :=
  ∏ a : Fin 3, if icomp ≠ a ∧ axGuard P nodal iv a then (-1 : ℚ) else 1

/-- Which components are forced to zero on a boundary node along axis `a`:
the tangential ones (`icomp ≠ a`) for the electric field pass
(`zeroTang = true`), the normal one (`icomp = a`) for the magnetic field
pass (`zeroTang = false`). -/
def zeroedComp (zeroTang : Bool) (icomp a : Fin 3) : Prop :=
  (zeroTang = true ∧ icomp ≠ a) ∨ (zeroTang = false ∧ icomp = a)

instance (zeroTang : Bool) (icomp a : Fin 3) : Decidable (zeroedComp zeroTang icomp a) := by
  unfold zeroedComp; infer_instance

/-- Modelled from the spec: the per-cell PEC rule (`PEC::SetEfieldOnPEC` /
`PEC::SetBfieldOnPEC` are declared in `BoundaryConditions/WarpX_PEC.H`,
which is not among the sources; only their call sites in
`WarpX_PEC.cpp` are).  Following spec section 4.1: a value exactly on a
PEC boundary node is forced to zero when the component is one of the
zeroed components for that axis and is nodal along it; otherwise a value
at a guard index past a PEC boundary is set from the mirrored interior
value, negated once for every tangential guard axis (odd reflection) and
un-negated for a normal guard axis (even reflection); all other values
are untouched. -/
def setFieldOnPEC (zeroTang : Bool) (icomp : Fin 3) (P : PECParams) (iv : Idx)
    (F : Grid) (nodal : Fin 3 → Bool) : ℚ :=
  if ∃ a : Fin 3, zeroedComp zeroTang icomp a ∧ axOnNode P nodal iv a then 0
  else if ∃ a : Fin 3, axGuard P nodal iv a then
    pecSign icomp P nodal iv * F (pecMirror P nodal iv)
  else F iv

/-- Modelled from the spec: `PEC::SetEfieldOnPEC` (see `setFieldOnPEC`) —
tangential components are zeroed on boundary nodes. -/
def SetEfieldOnPEC (icomp : Fin 3) (P : PECParams) (iv : Idx)
    (Efield : Grid) (is_nodal : Fin 3 → Bool) : ℚ :=
  setFieldOnPEC true icomp P iv Efield is_nodal

/-- Modelled from the spec: `PEC::SetBfieldOnPEC` (see `setFieldOnPEC`) —
the normal component is zeroed on boundary nodes. -/
def SetBfieldOnPEC (icomp : Fin 3) (P : PECParams) (iv : Idx)
    (Bfield : Grid) (is_nodal : Fin 3 → Bool) : ℚ :=
  setFieldOnPEC false icomp P iv Bfield is_nodal

/-- `PEC::isAnyBoundaryPEC`: scans the per-axis boundary tables for a PEC
entry on either side. -/
def isAnyBoundaryPEC (P : PECParams) : Bool :=
  decide (∃ a : Fin 3, P.fbndry_lo a = FieldBoundaryType.PEC ∨
                       P.fbndry_hi a = FieldBoundaryType.PEC)

/-- The common shape of `PEC::ApplyPECtoEfield` / `PEC::ApplyPECtoBfield`:
for each of the three component grids, apply the per-cell rule at every
index of that component's processed box (the tile boxes at the
component's staggering, grown by `ng_fieldgather`), leaving all other
values unchanged. -/
def applyPECPass (zeroTang : Bool) (P : PECParams) (nodal : Fin 3 → Fin 3 → Bool)
    (tb : Fin 3 → Box3) (F : Fin 3 → Grid) : Fin 3 → Grid :=
  fun c iv =>
    if (tb c).contains iv then setFieldOnPEC zeroTang c P iv (F c) (nodal c)
    else F c iv

/-- `PEC::ApplyPECtoEfield` (WarpX_PEC.cpp lines 26-120), with the domain
box already extracted (and coarsened for a coarse patch) into `P` and the
per-component tile boxes (which account for `split_pml_field` and
`ng_fieldgather`) passed as `tb`. -/
def ApplyPECtoEfield (P : PECParams) (nodal : Fin 3 → Fin 3 → Bool)
    (tb : Fin 3 → Box3) (Efield : Fin 3 → Grid) : Fin 3 → Grid :=
  applyPECPass true P nodal tb Efield

/-- `PEC::ApplyPECtoBfield` (WarpX_PEC.cpp lines 123-213). -/
def ApplyPECtoBfield (P : PECParams) (nodal : Fin 3 → Fin 3 → Bool)
    (tb : Fin 3 → Box3) (Bfield : Fin 3 → Grid) : Fin 3 → Grid :=
  applyPECPass false P nodal tb Bfield

/-- Sign of the reflected value in the guard-cell rule, as the spec states
it per component: `+1` (even) for the normal component, `-1` (odd) for a
tangential component. -/
def reflectSign (icomp a : Fin 3) : ℚ := if icomp = a then 1 else -1

/-- The mirrored coordinate along the guard axis, for a single-axis guard
point at depth `d` past the boundary on side `side` (`false` = low,
`true` = high). -/
def mirrorVal (P : PECParams) (nodalA : Bool) (a : Fin 3) (side : Bool) (d : ℤ) : ℤ :=
  if side then P.dom_hi a + 1 - d
  else P.dom_lo a + d - (1 - boolToInt nodalA)

/-- The index of the boundary node of axis `a` on side `side`
(`false` = low, `true` = high): nodes run from `dom_lo a` to
`dom_hi a + 1`. -/
def bnode (P : PECParams) (a : Fin 3) (side : Bool) : ℤ :=
  if side then P.dom_hi a + 1 else P.dom_lo a

/-- Index vector shifted by `d` along axis `a` (a stencil neighbor such as
`phi_arr(i, j+1, k)`). -/
def shift (iv : Idx) (a : Fin 3) (d : ℤ) : Idx :=
  Function.update iv a (iv a + d)

/-- The per-cell increment added to `Ex_arr(i,j,k)` by `WarpX::computeE`
(InitSpaceChargeField.cpp lines 159-162), transcribed term by term. -/
def Ex_increment (beta : Fin 3 → ℚ) (inv_dx inv_dy inv_dz : ℚ)
    (phi_arr : Grid) (iv : Idx) : ℚ :=
  (beta 0 * beta 0 - 1) * inv_dx * (phi_arr (shift iv 0 1) - phi_arr iv)
  + beta 0 * beta 1 * 0.5 * inv_dy * (phi_arr (shift iv 1 1) - phi_arr (shift iv 1 (-1)))
  + beta 0 * beta 2 * 0.5 * inv_dz * (phi_arr (shift iv 2 1) - phi_arr (shift iv 2 (-1)))

/-- The per-cell increment added to `Ey_arr(i,j,k)` by `WarpX::computeE`
(InitSpaceChargeField.cpp lines 165-168). -/
def Ey_increment (beta : Fin 3 → ℚ) (inv_dx inv_dy inv_dz : ℚ)
    (phi_arr : Grid) (iv : Idx) : ℚ :=
  beta 1 * beta 0 * 0.5 * inv_dx * (phi_arr (shift iv 0 1) - phi_arr (shift iv 0 (-1)))
  + (beta 1 * beta 1 - 1) * inv_dy * (phi_arr (shift iv 1 1) - phi_arr iv)
  + beta 1 * beta 2 * 0.5 * inv_dz * (phi_arr (shift iv 2 1) - phi_arr (shift iv 2 (-1)))

/-- The per-cell increment added to `Ez_arr(i,j,k)` by `WarpX::computeE`
(InitSpaceChargeField.cpp lines 171-174).  Note the coefficient of the
one-sided difference along z is `beta_y*beta_z - 1`, exactly as the
source writes it. -/
def Ez_increment (beta : Fin 3 → ℚ) (inv_dx inv_dy inv_dz : ℚ)
    (phi_arr : Grid) (iv : Idx) : ℚ :=
  beta 2 * beta 0 * 0.5 * inv_dx * (phi_arr (shift iv 0 1) - phi_arr (shift iv 0 (-1)))
  + beta 2 * beta 1 * 0.5 * inv_dy * (phi_arr (shift iv 1 1) - phi_arr (shift iv 1 (-1)))
  + (beta 1 * beta 2 - 1) * inv_dz * (phi_arr (shift iv 2 1) - phi_arr iv)

/-- The z-component increment written the way the spec's formula
`E += -grad phi + beta (beta . grad) phi` requires it: the coefficient of
the one-sided difference along the component's own axis is
`beta_z * beta_z - 1` (compare `Ez_increment`, which follows the
source). -/
def Ez_increment_specform (beta : Fin 3 → ℚ) (inv_dx inv_dy inv_dz : ℚ)
    (phi_arr : Grid) (iv : Idx) : ℚ :=
  beta 2 * beta 0 * 0.5 * inv_dx * (phi_arr (shift iv 0 1) - phi_arr (shift iv 0 (-1)))
  + beta 2 * beta 1 * 0.5 * inv_dy * (phi_arr (shift iv 1 1) - phi_arr (shift iv 1 (-1)))
  + (beta 2 * beta 2 - 1) * inv_dz * (phi_arr (shift iv 2 1) - phi_arr iv)

/-- Dispatch of the three per-component increments of `WarpX::computeE`. -/
def EInc (c : Fin 3) (beta : Fin 3 → ℚ) (inv_dx inv_dy inv_dz : ℚ)
    (phi_arr : Grid) (iv : Idx) : ℚ :=
  if c = 0 then Ex_increment beta inv_dx inv_dy inv_dz phi_arr iv
  else if c = 1 then Ey_increment beta inv_dx inv_dy inv_dz phi_arr iv
  else Ez_increment beta inv_dx inv_dy inv_dz phi_arr iv

/-- `WarpX::computeE` (InitSpaceChargeField.cpp lines 120-194): for every
level `lev` from 0 to `max_level` and every component `c`, every index in
that level's component tile box accumulates the stencil increment, whose
potential values are read from `phi 0` — the level-0 potential grid, as
in the source's `phi[0]->array(mfi)` (line 145) — while the cell sizes
`inv lev` belong to level `lev`. -/
def computeE (max_level : ℕ) (inv : ℕ → Fin 3 → ℚ) (tb : ℕ → Fin 3 → Box3)
    (phi : ℕ → Grid) (beta : Fin 3 → ℚ) (E : ℕ → Fin 3 → Grid) :
    ℕ → Fin 3 → Grid :=
  fun lev c iv =>
    if lev ≤ max_level ∧ (tb lev c).contains iv then
      E lev c iv + EInc c beta (inv lev 0) (inv lev 1) (inv lev 2) (phi 0) iv
    else E lev c iv

/-- Linear-operator boundary types passed to the MLMG solver. -/
inductive LinOpBCType
  | Periodic
  | Dirichlet
  deriving DecidableEq

/-- The abstract linear solver (`MLMG::solve` on the
`MLNodeTensorLaplacian` operator): arguments are the low/high
boundary-condition tables, the operator's beta vector, the right-hand
side and initial-guess grids per level, and the relative and absolute
tolerances; the result is the solution per level. -/
abbrev Solver : Type :=
  (Fin 3 → LinOpBCType) → (Fin 3 → LinOpBCType) → (Fin 3 → ℚ) →
  (ℕ → Grid) → (ℕ → Grid) → ℚ → ℚ → (ℕ → Grid)

/-- The per-axis boundary condition the spec prescribes: Periodic where
the level-0 geometry is periodic on that axis, Dirichlet otherwise. -/
def bcFromPeriodicity (periodic : Fin 3 → Bool) : Fin 3 → LinOpBCType :=
  fun a => if periodic a then LinOpBCType.Periodic else LinOpBCType.Dirichlet

/-- `WarpX::computePhi` (InitSpaceChargeField.cpp lines 62-103): builds
the per-axis boundary-condition tables from `Geom(0).isPeriodic`, invokes
the solver with relative tolerance `1.e-11` and absolute tolerance `0`,
then multiplies the solution on each level `lev < num_levels`
(`rho.size()`) by `-1/ep0`. -/
def computePhi (solver : Solver) (periodic : Fin 3 → Bool) (ep0 : ℚ)
    (num_levels : ℕ) (rho : ℕ → Grid) (phi : ℕ → Grid) (beta : Fin 3 → ℚ) :
    ℕ → Grid :=
  let lobc : Fin 3 → LinOpBCType :=
    fun a => if periodic a then LinOpBCType.Periodic else LinOpBCType.Dirichlet
  let hibc : Fin 3 → LinOpBCType :=
    fun a => if periodic a then LinOpBCType.Periodic else LinOpBCType.Dirichlet
  let reltol : ℚ := 1e-11
  let sol : ℕ → Grid := solver lobc hibc beta rho phi reltol 0
  fun lev => if lev < num_levels then (fun iv => sol lev iv * (-1 / ep0)) else sol lev

/-- `WarpX::InitSpaceChargeField` (InitSpaceChargeField.cpp lines 10-47):
aborts on azimuthally symmetric (RZ) geometry; otherwise allocates the
zero-initialized potential grids, takes the deposited charge density
`rho` from the charge-deposition collaborator, normalizes the mean
particle velocity by the speed of light, solves for the potential and
accumulates the reconstructed field into `Efield_fp`.  The `Except`
value models `amrex::Abort`: on `error` no updated field state exists. -/
def InitSpaceChargeField (rz_geometry : Bool) (max_level : ℕ)
    (depositCharge : ℕ → Grid) (meanParticleVelocity : Fin 3 → ℚ) (c_light : ℚ)
    (solver : Solver) (periodic : Fin 3 → Bool) (ep0 : ℚ)
    (inv : ℕ → Fin 3 → ℚ) (tb : ℕ → Fin 3 → Box3)
    (Efield_fp : ℕ → Fin 3 → Grid) : Except String (ℕ → Fin 3 → Grid) :=
  if rz_geometry then
    Except.error "The initialization of space-charge field has not yet been implemented in RZ geometry."
  else
    let num_levels : ℕ := max_level + 1
    let phi0 : ℕ → Grid := fun _ => fun _ => 0
    let rho : ℕ → Grid := depositCharge
    let beta : Fin 3 → ℚ := fun a => meanParticleVelocity a / c_light
    let phi : ℕ → Grid := computePhi solver periodic ep0 num_levels rho phi0 beta
    Except.ok (computeE max_level inv tb phi beta Efield_fp)

/-- `BoxArray::surroundingNodes`: the nodal box of a cell-centered box. -/
def surroundingNodes (b : Box3) : Box3 :=
  ⟨b.lo, fun a => b.hi a + 1⟩

/-- Modelled from the spec: the Yee staggering of the E components
(`Ex_nodal_flag` etc. are set up outside this core): component `c` is
cell-centered along its own axis and nodal along the other two (spec
section 3, "Yee-type offset"). -/
def eNodalFlag (c : Fin 3) : Fin 3 → Bool :=
  fun a => a != c

/-- The allocated index box of a potential FAB over the domain box `dom`:
nodal in every direction (`nba.surroundingNodes()`) with zero guard cells
(`new MultiFab(nba, dmap[lev], 1, 0)`, InitSpaceChargeField.cpp
line 27). -/
def phiAllocBox (dom : Box3) : Box3 :=
  surroundingNodes dom

/-- Modelled from the spec: `mfi.tilebox(E*_nodal_flag)` over the nodal
potential grid of the (single-box) domain `dom`: the iteration range of
component `c` runs over nodes along the axes where `c` is nodal and over
cells along `c`'s own axis. -/
def eTileBox (dom : Box3) (c : Fin 3) : Box3 :=
  ⟨dom.lo, fun a => dom.hi a + boolToInt (eNodalFlag c a)⟩

/-- The six potential reads performed by component `c`'s stencil at index
`iv` (InitSpaceChargeField.cpp lines 159-174). -/
def eStencilReads (c : Fin 3) (iv : Idx) : List Idx :=
  if c = 0 then
    [shift iv 0 1, iv, shift iv 1 1, shift iv 1 (-1), shift iv 2 1, shift iv 2 (-1)]
  else if c = 1 then
    [shift iv 0 1, shift iv 0 (-1), shift iv 1 1, iv, shift iv 2 1, shift iv 2 (-1)]
  else
    [shift iv 0 1, shift iv 0 (-1), shift iv 1 1, shift iv 1 (-1), shift iv 2 1, iv]

/-- The safety property claimed of the reconstruction stencil: every
potential read of every component at every index of its iteration range
over the domain `dom` stays inside the allocated (zero-guard, nodal)
potential box. -/
def stencilReadsInBounds (dom : Box3) : Prop :=
  ∀ c : Fin 3, ∀ iv : Idx, (eTileBox dom c).contains iv →
    ∀ r ∈ eStencilReads c iv, (phiAllocBox dom).contains r

/-- The Yee staggering of the E-field components: component `c` is
cell-centered along its own axis, nodal along the others. -/
def nodalYee : Fin 3 → Fin 3 → Bool :=
  fun c => eNodalFlag c

/-- Concrete boundary configuration for witnesses: domain cells `[0,3]^3`,
PEC on both sides of axis 0, other boundaries non-PEC. -/
def Pw : PECParams :=
  ⟨fun _ => 0, fun _ => 3,
   fun a => if a = 0 then FieldBoundaryType.PEC else FieldBoundaryType.Other,
   fun a => if a = 0 then FieldBoundaryType.PEC else FieldBoundaryType.Other⟩

/-- Concrete tile boxes for witnesses. -/
def tbW : Fin 3 → Box3 :=
  fun _ => ⟨fun _ => -2, fun _ => 6⟩

/-- Concrete field grids for witnesses. -/
def EfW : Fin 3 → Grid :=
  fun _ iv => (iv 0 : ℚ)

/-- A concrete index on the low PEC boundary node of axis 0 of `Pw`. -/
def ivW : Idx :=
  fun a => if a = 0 then 0 else 1

/-- A concrete guard index one point past the low PEC boundary of `Pw`. -/
def iv2W : Idx :=
  fun a => if a = 0 then -1 else 1

/-- A boundary configuration with no PEC side at all. -/
def PnoPec : PECParams :=
  ⟨fun _ => 0, fun _ => 3, fun _ => FieldBoundaryType.Other,
   fun _ => FieldBoundaryType.Other⟩

/-- Counterexample configuration: domain cells `[0,2]` along every axis,
with PEC on both sides of axis 0. -/
def Pcx : PECParams :=
  ⟨fun _ => 0, fun _ => 2,
   fun a => if a = 0 then FieldBoundaryType.PEC else FieldBoundaryType.Other,
   fun a => if a = 0 then FieldBoundaryType.PEC else FieldBoundaryType.Other⟩

/-- Counterexample tile boxes: they reach three points past the low
boundary of a domain of extent two, so the mirror of the deepest guard
node lands on the opposite (high) PEC boundary node. -/
def tbCx : Fin 3 → Box3 :=
  fun _ => ⟨fun _ => -3, fun _ => 4⟩

/-- Counterexample field: 1 on the plane `x = 3` (the high boundary-node
plane of axis 0), 0 elsewhere. -/
def EfCx : Fin 3 → Grid :=
  fun _ iv => if iv 0 = 3 then 1 else 0

/-- The guard index `(-3, 1, 1)` of the counterexample, whose mirror
across the low boundary of axis 0 is the high boundary node `(3, 1, 1)`. -/
def ivCx : Idx :=
  fun a => if a = 0 then -3 else 1

/-- Concrete drift velocity `(0, 0, 1)` for the coefficient
counterexample. -/
def betaCx : Fin 3 → ℚ :=
  fun a => if a = 2 then 1 else 0

/-- A potential linear in the z index. -/
def phiLinZ : Grid :=
  fun iv => (iv 2 : ℚ)

/-- The origin index. -/
def ivZero : Idx :=
  fun _ => 0

theorem boolToInt_bounds (b : Bool) : 0 ≤ boolToInt b ∧ boolToInt b ≤ 1 := by
  cases b <;> simp [boolToInt]

theorem setFieldOnPEC_id (zeroTang : Bool) (icomp : Fin 3) (P : PECParams) (iv : Idx)
    (F : Grid) (nodal : Fin 3 → Bool)
    (hz : ∀ a : Fin 3, ¬ (zeroedComp zeroTang icomp a ∧ axOnNode P nodal iv a))
    (hg : ∀ a : Fin 3, ¬ axGuard P nodal iv a) :
    setFieldOnPEC zeroTang icomp P iv F nodal = F iv := by
  unfold setFieldOnPEC
  rw [if_neg (not_exists.2 hz), if_neg (not_exists.2 hg)]

theorem applyPass_zero_at_node (zeroTang : Bool) (P : PECParams)
    (nodal : Fin 3 → Fin 3 → Bool) (tb : Fin 3 → Box3) (F : Fin 3 → Grid)
    (c a : Fin 3) (side : Bool) (iv : Idx)
    (hzc : zeroedComp zeroTang c a)
    (hnodal : nodal c a = true)
    (hPEC : (if side then P.fbndry_hi a else P.fbndry_lo a) = FieldBoundaryType.PEC)
    (hiv : iv a = bnode P a side)
    (htb : (tb c).contains iv) :
    applyPECPass zeroTang P nodal tb F c iv = 0 := by
  unfold applyPECPass
  rw [if_pos htb]
  unfold setFieldOnPEC
  rw [if_pos]
  refine ⟨a, hzc, hnodal, ?_⟩
  unfold bnode at hiv
  cases side with
  | false =>
      simp only [Bool.false_eq_true, if_false] at hiv hPEC
      exact Or.inl ⟨hPEC, by unfold igLo; omega⟩
  | true =>
      simp only [if_true] at hiv hPEC
      refine Or.inr ⟨hPEC, ?_⟩
      unfold igHi boolToInt
      rw [hnodal]
      simp only [if_true]
      omega

theorem applyPass_guard_reflect (zeroTang : Bool) (P : PECParams)
    (nodal : Fin 3 → Fin 3 → Bool) (tb : Fin 3 → Box3) (F : Fin 3 → Grid)
    (c a : Fin 3) (side : Bool) (d : ℤ) (iv : Idx)
    (hdom : P.dom_lo a ≤ P.dom_hi a)
    (hPEC : (if side then P.fbndry_hi a else P.fbndry_lo a) = FieldBoundaryType.PEC)
    (hd : 1 ≤ d)
    (hiva : iv a = if side then P.dom_hi a + boolToInt (nodal c a) + d else P.dom_lo a - d)
    (hother : ∀ b : Fin 3, b ≠ a → igLo P iv b < 0 ∧ igHi P (nodal c) iv b < 0)
    (htb : (tb c).contains iv) :
    applyPECPass zeroTang P nodal tb F c iv
      = reflectSign c a *
        F c (Function.update iv a (mirrorVal P (nodal c a) a side d)) := by
  have hbn := boolToInt_bounds (nodal c a)
  -- the ig values along the guard axis
  have higlo : igLo P iv a = if side then P.dom_lo a - P.dom_hi a - boolToInt (nodal c a) - d else d := by
    unfold igLo
    cases side <;> simp_all <;> ring
  have highi : igHi P (nodal c) iv a = if side then d else P.dom_lo a - d - P.dom_hi a - boolToInt (nodal c a) := by
    unfold igHi
    cases side <;> simp_all <;> ring
  have hguard : axGuard P (nodal c) iv a := by
    cases side with
    | false =>
        simp only [Bool.false_eq_true, if_false] at hPEC higlo
        exact Or.inl ⟨hPEC, by omega⟩
    | true =>
        simp only [if_true] at hPEC highi
        exact Or.inr ⟨hPEC, by omega⟩
  have hnoguard : ∀ b : Fin 3, b ≠ a → ¬ axGuard P (nodal c) iv b := by
    intro b hb
    obtain ⟨h1, h2⟩ := hother b hb
    rintro (⟨_, h⟩ | ⟨_, h⟩) <;> omega
  have hnonode : ∀ b : Fin 3, ¬ axOnNode P (nodal c) iv b := by
    intro b
    by_cases hb : b = a
    · subst hb
      rintro ⟨_, (⟨_, h⟩ | ⟨_, h⟩)⟩ <;> cases side <;> simp_all <;> omega
    · obtain ⟨h1, h2⟩ := hother b hb
      rintro ⟨_, (⟨_, h⟩ | ⟨_, h⟩)⟩ <;> omega
  unfold applyPECPass
  rw [if_pos htb]
  unfold setFieldOnPEC
  rw [if_neg (not_exists.2 fun b h => hnonode b h.2), if_pos ⟨a, hguard⟩]
  have hsign : pecSign c P (nodal c) iv = reflectSign c a := by
    unfold pecSign
    rw [Finset.prod_eq_single a]
    · unfold reflectSign
      by_cases hca : c = a
      · rw [if_neg (by tauto), if_pos hca]
      · rw [if_pos ⟨hca, hguard⟩, if_neg hca]
    · intro b _ hb
      rw [if_neg (by exact fun h => hnoguard b hb h.2)]
    · intro h
      exact absurd (Finset.mem_univ a) h
  have hmirror : pecMirror P (nodal c) iv
      = Function.update iv a (mirrorVal P (nodal c a) a side d) := by
    funext b
    unfold pecMirror axMirror
    by_cases hb : b = a
    · subst hb
      rw [Function.update_same]
      unfold mirrorVal
      cases side with
      | false =>
          simp only [Bool.false_eq_true, if_false] at higlo highi ⊢
          rw [if_neg, if_pos]
          · rw [higlo]
          · cases hguard with
            | inl h => exact h
            | inr h => exact absurd h.2 (by omega)
          · rintro ⟨_, h⟩
            omega
      | true =>
          simp only [if_true] at higlo highi ⊢
          rw [if_pos]
          · rw [highi]
          · cases hguard with
            | inl h => exact absurd h.2 (by omega)
            | inr h => exact h
    · rw [Function.update_noteq hb]
      obtain ⟨h1, h2⟩ := hother b hb
      rw [if_neg, if_neg]
      · rintro ⟨_, h⟩
        omega
      · rintro ⟨_, h⟩
        omega
  rw [hsign, hmirror]

theorem applyPass_no_pec (zeroTang : Bool) (P : PECParams)
    (nodal : Fin 3 → Fin 3 → Bool) (tb : Fin 3 → Box3) (F : Fin 3 → Grid)
    (h : isAnyBoundaryPEC P = false) :
    applyPECPass zeroTang P nodal tb F = F := by
  have h' : ∀ a : Fin 3, P.fbndry_lo a ≠ FieldBoundaryType.PEC ∧
      P.fbndry_hi a ≠ FieldBoundaryType.PEC := by
    intro a
    have := of_decide_eq_false h
    push_neg at this
    exact this a
  funext c iv
  unfold applyPECPass
  by_cases htb : (tb c).contains iv
  · rw [if_pos htb]
    refine setFieldOnPEC_id _ _ _ _ _ _ ?_ ?_
    · rintro a ⟨_, _, (⟨h1, _⟩ | ⟨h1, _⟩)⟩
      · exact (h' a).1 h1
      · exact (h' a).2 h1
    · rintro a (⟨h1, _⟩ | ⟨h1, _⟩)
      · exact (h' a).1 h1
      · exact (h' a).2 h1
  · rw [if_neg htb]

theorem pecMirror_coord_of_guard (P : PECParams) (n : Fin 3 → Bool) (iv : Idx) (a : Fin 3)
    (hbnd : 2 * P.dom_lo a - P.dom_hi a ≤ iv a ∧
            iv a ≤ 2 * P.dom_hi a - P.dom_lo a + boolToInt (n a))
    (hga : axGuard P n iv a) :
    (n a = true → igLo P (pecMirror P n iv) a < 0 ∧ igHi P n (pecMirror P n iv) a < 0) ∧
    ¬ (0 < igLo P (pecMirror P n iv) a) ∧ ¬ (0 < igHi P n (pecMirror P n iv) a) := by
  have hbn := boolToInt_bounds (n a)
  have himp : n a = true → boolToInt (n a) = 1 := fun h => by rw [h]; rfl
  rcases hga with ⟨hpec, hig⟩ | ⟨hpec, hig⟩
  · -- low-side guard; under the depth bound the high side cannot also guard
    unfold igLo at hig
    have hnh : ¬ guardHi P n iv a := by
      rintro ⟨_, h⟩
      unfold igHi at h
      omega
    have hma : axMirror P n iv a
        = P.dom_lo a + (P.dom_lo a - iv a) - (1 - boolToInt (n a)) := by
      unfold axMirror igLo
      rw [if_neg hnh, if_pos ⟨hpec, by unfold igLo; omega⟩]
    simp only [pecMirror, igLo, igHi]
    rw [hma]
    exact ⟨fun hna => by have h1 := himp hna; omega, by omega, by omega⟩
  · -- high-side guard
    unfold igHi at hig
    have hma : axMirror P n iv a
        = P.dom_hi a + 1 - (iv a - P.dom_hi a - boolToInt (n a)) := by
      unfold axMirror igHi
      rw [if_pos ⟨hpec, by unfold igHi; omega⟩]
    simp only [pecMirror, igLo, igHi]
    rw [hma]
    exact ⟨fun hna => by have h1 := himp hna; omega, by omega, by omega⟩

theorem pecMirror_coord_of_no_guard (P : PECParams) (n : Fin 3 → Bool) (iv : Idx)
    (a : Fin 3) (hga : ¬ axGuard P n iv a) :
    pecMirror P n iv a = iv a := by
  unfold pecMirror axMirror
  rw [if_neg (fun h => hga (Or.inr h)), if_neg (fun h => hga (Or.inl h))]

theorem pecMirror_no_trigger (zeroTang : Bool) (c : Fin 3) (P : PECParams)
    (n : Fin 3 → Bool) (iv : Idx)
    (hz : ∀ a : Fin 3, ¬ (zeroedComp zeroTang c a ∧ axOnNode P n iv a))
    (hbnd : ∀ a : Fin 3, 2 * P.dom_lo a - P.dom_hi a ≤ iv a ∧
            iv a ≤ 2 * P.dom_hi a - P.dom_lo a + boolToInt (n a)) :
    (∀ a : Fin 3, ¬ (zeroedComp zeroTang c a ∧ axOnNode P n (pecMirror P n iv) a)) ∧
    (∀ a : Fin 3, ¬ axGuard P n (pecMirror P n iv) a) := by
  have key : ∀ a : Fin 3,
      (¬ axOnNode P n (pecMirror P n iv) a ∨ ¬ zeroedComp zeroTang c a) ∧
      ¬ axGuard P n (pecMirror P n iv) a := by
    intro a
    by_cases hga : axGuard P n iv a
    · obtain ⟨h3, h4, h5⟩ := pecMirror_coord_of_guard P n iv a (hbnd a) hga
      constructor
      · left
        rintro ⟨hna, (⟨_, h⟩ | ⟨_, h⟩)⟩
        · exact absurd h (by have := (h3 hna).1; omega)
        · exact absurd h (by have := (h3 hna).2; omega)
      · rintro (⟨_, h⟩ | ⟨_, h⟩)
        · exact h4 h
        · exact h5 h
    · have hma := pecMirror_coord_of_no_guard P n iv a hga
      constructor
      · by_cases hzc : zeroedComp zeroTang c a
        · left
          intro hon
          refine hz a ⟨hzc, ?_⟩
          unfold axOnNode igLo igHi at hon ⊢
          rw [hma] at hon
          exact hon
        · right
          exact hzc
      · intro hg
        refine hga ?_
        unfold axGuard guardLo guardHi igLo igHi at hg ⊢
        rw [hma] at hg
        exact hg
  constructor
  · intro a
    rcases (key a).1 with h | h
    · exact fun hh => h hh.2
    · exact fun hh => h hh.1
  · exact fun a => (key a).2

theorem applyPass_idem (zeroTang : Bool) (P : PECParams)
    (nodal : Fin 3 → Fin 3 → Bool) (tb : Fin 3 → Box3) (F : Fin 3 → Grid)
    (H : ∀ c a : Fin 3, 2 * P.dom_lo a - P.dom_hi a ≤ (tb c).lo a ∧
         (tb c).hi a ≤ 2 * P.dom_hi a - P.dom_lo a + boolToInt (nodal c a)) :
    applyPECPass zeroTang P nodal tb (applyPECPass zeroTang P nodal tb F)
      = applyPECPass zeroTang P nodal tb F := by
  funext c iv
  by_cases htb : (tb c).contains iv
  · have hout : applyPECPass zeroTang P nodal tb
        (applyPECPass zeroTang P nodal tb F) c iv
        = setFieldOnPEC zeroTang c P iv ((applyPECPass zeroTang P nodal tb F) c)
            (nodal c) := by
      unfold applyPECPass
      rw [if_pos htb]
    rw [hout]
    have hrhs : applyPECPass zeroTang P nodal tb F c iv
        = setFieldOnPEC zeroTang c P iv (F c) (nodal c) := by
      unfold applyPECPass
      rw [if_pos htb]
    rw [hrhs]
    by_cases hz : ∃ a : Fin 3, zeroedComp zeroTang c a ∧ axOnNode P (nodal c) iv a
    · unfold setFieldOnPEC
      rw [if_pos hz, if_pos hz]
    · by_cases hgd : ∃ a : Fin 3, axGuard P (nodal c) iv a
      · have hbnd : ∀ a : Fin 3, 2 * P.dom_lo a - P.dom_hi a ≤ iv a ∧
            iv a ≤ 2 * P.dom_hi a - P.dom_lo a + boolToInt (nodal c a) := by
          intro a
          have h1 := htb a
          have h2 := H c a
          omega
        obtain ⟨hz', hg'⟩ :=
          pecMirror_no_trigger zeroTang c P (nodal c) iv (not_exists.1 hz) hbnd
        have hmval : (applyPECPass zeroTang P nodal tb F) c (pecMirror P (nodal c) iv)
            = F c (pecMirror P (nodal c) iv) := by
          unfold applyPECPass
          by_cases hmtb : (tb c).contains (pecMirror P (nodal c) iv)
          · rw [if_pos hmtb]
            exact setFieldOnPEC_id _ _ _ _ _ _ hz' hg'
          · rw [if_neg hmtb]
        unfold setFieldOnPEC
        rw [if_neg hz, if_neg hz, if_pos hgd, if_pos hgd, hmval]
      · have hival : (applyPECPass zeroTang P nodal tb F) c iv = F c iv := by
          unfold applyPECPass
          rw [if_pos htb]
          exact setFieldOnPEC_id _ _ _ _ _ _ (not_exists.1 hz) (not_exists.1 hgd)
        unfold setFieldOnPEC
        rw [if_neg hz, if_neg hz, if_neg hgd, if_neg hgd, hival]
  · unfold applyPECPass
    rw [if_neg htb, if_neg htb]

/-- C1: for every PEC-configured axis `a` (either side) and every index
lying exactly on the PEC boundary node along `a` and inside the processed
tile box, the E-field boundary pass sets every tangential component
(`c ≠ a`, nodal along `a`) at that node to 0, and the B-field boundary
pass sets the normal component (`c = a`, nodal along `a`) at that node
to 0. -/
theorem pec_zero_on_boundary_node (P : PECParams)
    (nodalE nodalB : Fin 3 → Fin 3 → Bool) (tbE tbB : Fin 3 → Box3)
    (Ef Bf : Fin 3 → Grid) (c a : Fin 3) (side : Bool) (iv : Idx)
    (hPEC : (if side then P.fbndry_hi a else P.fbndry_lo a) = FieldBoundaryType.PEC)
    (hiv : iv a = bnode P a side) :
    (c ≠ a → nodalE c a = true → (tbE c).contains iv →
      ApplyPECtoEfield P nodalE tbE Ef c iv = 0) ∧
    (c = a → nodalB c a = true → (tbB c).contains iv →
      ApplyPECtoBfield P nodalB tbB Bf c iv = 0) := by
  constructor
  · intro hca hn htb
    exact applyPass_zero_at_node true P nodalE tbE Ef c a side iv
      (Or.inl ⟨rfl, hca⟩) hn hPEC hiv htb
  · intro hca hn htb
    exact applyPass_zero_at_node false P nodalB tbB Bf c a side iv
      (Or.inr ⟨rfl, hca⟩) hn hPEC hiv htb

/-- Witness for C1: in the concrete configuration `Pw`, the pass zeroes
the (tangential, nodal along axis 0) component 1 at the node `(0,1,1)` on
the low PEC boundary of axis 0. -/
theorem pec_zero_on_boundary_node_w :
    ApplyPECtoEfield Pw nodalYee tbW EfW 1 ivW = 0 :=
  (pec_zero_on_boundary_node Pw nodalYee nodalYee tbW tbW EfW EfW 1 0 false ivW
    (by decide) (by decide)).1 (by decide) (by decide) (by decide)

/-- C2: for a guard index at depth `d ≥ 1` past a PEC boundary of axis
`a` (on side `side`), strictly interior along every other axis and inside
the processed tile box, both boundary passes set the guard value to the
interior value at the mirrored offset, negated for a tangential component
(`c ≠ a`, odd reflection) and un-negated for the normal component
(`c = a`, even reflection); the mirror point is the boundary node for a
component nodal along `a` and the boundary face for a cell-centered one
(`mirrorVal`). -/
theorem pec_guard_reflection (P : PECParams) (c a : Fin 3) (side : Bool) (d : ℤ)
    (hdom : P.dom_lo a ≤ P.dom_hi a)
    (hPEC : (if side then P.fbndry_hi a else P.fbndry_lo a) = FieldBoundaryType.PEC)
    (hd : 1 ≤ d) :
    (∀ (nodal : Fin 3 → Fin 3 → Bool) (tb : Fin 3 → Box3) (Ef : Fin 3 → Grid)
       (iv : Idx),
      iv a = (if side then P.dom_hi a + boolToInt (nodal c a) + d else P.dom_lo a - d) →
      (∀ b : Fin 3, b ≠ a → igLo P iv b < 0 ∧ igHi P (nodal c) iv b < 0) →
      (tb c).contains iv →
      ApplyPECtoEfield P nodal tb Ef c iv
        = reflectSign c a *
          Ef c (Function.update iv a (mirrorVal P (nodal c a) a side d))) ∧
    (∀ (nodal : Fin 3 → Fin 3 → Bool) (tb : Fin 3 → Box3) (Bf : Fin 3 → Grid)
       (iv : Idx),
      iv a = (if side then P.dom_hi a + boolToInt (nodal c a) + d else P.dom_lo a - d) →
      (∀ b : Fin 3, b ≠ a → igLo P iv b < 0 ∧ igHi P (nodal c) iv b < 0) →
      (tb c).contains iv →
      ApplyPECtoBfield P nodal tb Bf c iv
        = reflectSign c a *
          Bf c (Function.update iv a (mirrorVal P (nodal c a) a side d))) :=
  ⟨fun nodal tb Ef iv hiva hother htb =>
    applyPass_guard_reflect true P nodal tb Ef c a side d iv hdom hPEC hd hiva hother htb,
   fun nodal tb Bf iv hiva hother htb =>
    applyPass_guard_reflect false P nodal tb Bf c a side d iv hdom hPEC hd hiva hother htb⟩

/-- Witness for C2: in the configuration `Pw`, the guard value of the
(tangential, nodal along axis 0) component 1 at `(-1,1,1)` becomes minus
the interior value at the mirrored node `(1,1,1)`. -/
theorem pec_guard_reflection_w :
    ApplyPECtoEfield Pw nodalYee tbW EfW 1 iv2W
      = reflectSign 1 0 *
        EfW 1 (Function.update iv2W 0 (mirrorVal Pw (nodalYee 1 0) 0 false 1)) :=
  (pec_guard_reflection Pw 1 0 false 1 (by decide) (by decide) (by decide)).1
    nodalYee tbW EfW iv2W (by decide) (by decide) (by decide)

/-- C7 (counterexample): the boundary passes are not idempotent for every
configuration and field state.  On the single-cell domain `Pcx` with PEC
on both sides of axis 0 and a one-point guard region, the first E-field
pass writes `-E(1,0,0)` into the guard node `(-1,0,0)` and zeroes the
boundary node `(1,0,0)`; the second pass therefore overwrites the guard
node with `0`, changing it again. -/
theorem pec_pass_not_idempotent :
    ApplyPECtoEfield Pcx nodalYee tbCx (ApplyPECtoEfield Pcx nodalYee tbCx EfCx) 1 ivCx
      ≠ ApplyPECtoEfield Pcx nodalYee tbCx EfCx 1 ivCx := by
  have hmv : mirrorVal Pcx (nodalYee 1 0) 0 false 3 = 3 := by decide
  have h1 := applyPass_guard_reflect true Pcx nodalYee tbCx EfCx 1 0 false 3 ivCx
    (by decide) (by decide) (by decide) (by decide) (by decide) (by decide)
  have h2 := applyPass_guard_reflect true Pcx nodalYee tbCx
    (applyPECPass true Pcx nodalYee tbCx EfCx) 1 0 false 3 ivCx
    (by decide) (by decide) (by decide) (by decide) (by decide) (by decide)
  rw [hmv] at h1 h2
  have h3 : applyPECPass true Pcx nodalYee tbCx EfCx 1 (Function.update ivCx 0 3) = 0 :=
    applyPass_zero_at_node true Pcx nodalYee tbCx EfCx 1 0 true (Function.update ivCx 0 3)
      (Or.inl ⟨rfl, by decide⟩) (by decide) (by decide) (by decide) (by decide)
  have h4 : EfCx 1 (Function.update ivCx 0 3) = 1 := by decide
  unfold ApplyPECtoEfield
  rw [h1, h2, h3, h4]
  norm_num [reflectSign]

/-- C7 (amended): the boundary passes are idempotent provided the
processed tile boxes do not reach deeper past a boundary than the
domain's own extent along each axis — so that no mirrored index lands on
or beyond the opposite boundary; then the second application of either
pass changes no value. -/
theorem pec_pass_idem_within_domain_depth (P : PECParams)
    (nodalE nodalB : Fin 3 → Fin 3 → Bool) (tbE tbB : Fin 3 → Box3)
    (Ef Bf : Fin 3 → Grid)
    (HE : ∀ c a : Fin 3, 2 * P.dom_lo a - P.dom_hi a ≤ (tbE c).lo a ∧
          (tbE c).hi a ≤ 2 * P.dom_hi a - P.dom_lo a + boolToInt (nodalE c a))
    (HB : ∀ c a : Fin 3, 2 * P.dom_lo a - P.dom_hi a ≤ (tbB c).lo a ∧
          (tbB c).hi a ≤ 2 * P.dom_hi a - P.dom_lo a + boolToInt (nodalB c a)) :
    ApplyPECtoEfield P nodalE tbE (ApplyPECtoEfield P nodalE tbE Ef)
      = ApplyPECtoEfield P nodalE tbE Ef ∧
    ApplyPECtoBfield P nodalB tbB (ApplyPECtoBfield P nodalB tbB Bf)
      = ApplyPECtoBfield P nodalB tbB Bf :=
  ⟨applyPass_idem true P nodalE tbE Ef HE, applyPass_idem false P nodalB tbB Bf HB⟩

/-- Witness for the amended C7: the configuration `Pw` with tile boxes
`[-2,6]^3` (guard depth at most 2 past a domain of extent 3) satisfies
the depth hypothesis, and both passes are idempotent there. -/
theorem pec_pass_idem_within_domain_depth_w :
    ApplyPECtoEfield Pw nodalYee tbW (ApplyPECtoEfield Pw nodalYee tbW EfW)
      = ApplyPECtoEfield Pw nodalYee tbW EfW ∧
    ApplyPECtoBfield Pw nodalYee tbW (ApplyPECtoBfield Pw nodalYee tbW EfW)
      = ApplyPECtoBfield Pw nodalYee tbW EfW :=
  pec_pass_idem_within_domain_depth Pw nodalYee nodalYee tbW tbW EfW EfW
    (by decide) (by decide)

/-- C8: if no axis has a PEC boundary on either side (the classifier
`isAnyBoundaryPEC` reports `false`), both boundary passes leave every
value of every passed-in grid unchanged. -/
theorem pec_pass_noop_without_pec (P : PECParams)
    (nodalE nodalB : Fin 3 → Fin 3 → Bool) (tbE tbB : Fin 3 → Box3)
    (Ef Bf : Fin 3 → Grid)
    (h : isAnyBoundaryPEC P = false) :
    ApplyPECtoEfield P nodalE tbE Ef = Ef ∧
    ApplyPECtoBfield P nodalB tbB Bf = Bf :=
  ⟨applyPass_no_pec true P nodalE tbE Ef h, applyPass_no_pec false P nodalB tbB Bf h⟩

/-- Witness for C8: the PEC-free configuration `PnoPec` leaves the grids
unchanged under both passes. -/
theorem pec_pass_noop_without_pec_w :
    ApplyPECtoEfield PnoPec nodalYee tbW EfW = EfW ∧
    ApplyPECtoBfield PnoPec nodalYee tbW EfW = EfW :=
  pec_pass_noop_without_pec PnoPec nodalYee nodalYee tbW tbW EfW EfW (by decide)

/-- C3 (code bug): the coefficient of the one-sided difference of phi
along Ez's own axis is `beta_y*beta_z - 1` in the source (line 174), not
the `beta_z*beta_z - 1` that the formula `E += -grad phi +
beta (beta . grad) phi` requires (and that the x and y components
follow).  At `beta = (0,0,1)`, unit cell sizes and a potential linear in
the z index, the code adds `-1` to Ez where the claimed formula adds
`0`. -/
theorem computeE_ez_coefficient_bug :
    Ez_increment betaCx 1 1 1 phiLinZ ivZero = -1 ∧
    Ez_increment_specform betaCx 1 1 1 phiLinZ ivZero = 0 := by
  constructor <;>
    norm_num [Ez_increment, Ez_increment_specform, betaCx, phiLinZ, ivZero,
      shift, Function.update, (by decide : (0 : Fin 3) ≠ 2), (by decide : (1 : Fin 3) ≠ 2),
      (by decide : (2 : Fin 3) ≠ 0), (by decide : (2 : Fin 3) ≠ 1)]

/-- C9: when the drift velocity is the zero vector, the increment the
reconstruction adds to each E component at every cell is the standard
discretized negative gradient of the potential along that component's
axis: all transverse and cross terms vanish identically (in particular
the miswritten Ez coefficient `beta_y*beta_z - 1` also equals `-1`
there). -/
theorem computeE_beta_zero_gradient (inv_dx inv_dy inv_dz : ℚ)
    (phi_arr : Grid) (iv : Idx) :
    Ex_increment (fun _ => 0) inv_dx inv_dy inv_dz phi_arr iv
      = -(inv_dx * (phi_arr (shift iv 0 1) - phi_arr iv)) ∧
    Ey_increment (fun _ => 0) inv_dx inv_dy inv_dz phi_arr iv
      = -(inv_dy * (phi_arr (shift iv 1 1) - phi_arr iv)) ∧
    Ez_increment (fun _ => 0) inv_dx inv_dy inv_dz phi_arr iv
      = -(inv_dz * (phi_arr (shift iv 2 1) - phi_arr iv)) := by
  refine ⟨?_, ?_, ?_⟩ <;>
    simp only [Ex_increment, Ey_increment, Ez_increment] <;>
    ring

/-- C4: the reconstruction reads the potential exclusively from the
level-0 potential grid: two potential families agreeing at level 0
produce identical updated E-fields on every level, whatever the other
levels hold. -/
theorem computeE_reads_level0_only (max_level : ℕ) (inv : ℕ → Fin 3 → ℚ)
    (tb : ℕ → Fin 3 → Box3) (phi phi' : ℕ → Grid) (beta : Fin 3 → ℚ)
    (E : ℕ → Fin 3 → Grid) (h : phi 0 = phi' 0) :
    computeE max_level inv tb phi beta E = computeE max_level inv tb phi' beta E := by
  unfold computeE
  rw [h]

/-- Witness for C4: changing the level-1 potential alone does not change
the reconstructed field on any level. -/
theorem computeE_reads_level0_only_w :
    computeE 1 (fun _ _ => 1) (fun _ _ => Box3.mk (fun _ => 0) (fun _ => 3))
        (fun _ _ => 2) betaCx (fun _ _ _ => 0)
      = computeE 1 (fun _ _ => 1) (fun _ _ => Box3.mk (fun _ => 0) (fun _ => 3))
        (fun lev _ => if lev = 0 then 2 else 7) betaCx (fun _ _ _ => 0) :=
  computeE_reads_level0_only 1 (fun _ _ => 1)
    (fun _ _ => Box3.mk (fun _ => 0) (fun _ => 3)) (fun _ _ => 2)
    (fun lev _ => if lev = 0 then 2 else 7) betaCx (fun _ _ _ => 0) rfl

/-- C5: the potential solve passes relative tolerance exactly `1e-11 =
1/10^11` and absolute tolerance exactly `0` to the solver, with each
axis's boundary condition Periodic when the level-0 geometry is periodic
on that axis and Dirichlet otherwise (on both sides), and the returned
potential on every level below `num_levels` is the solver's solution
multiplied by `-1/ep0`. -/
theorem computePhi_contract (solver : Solver) (periodic : Fin 3 → Bool) (ep0 : ℚ)
    (num_levels : ℕ) (rho phi : ℕ → Grid) (beta : Fin 3 → ℚ) (lev : ℕ) (iv : Idx)
    (h : lev < num_levels) :
    computePhi solver periodic ep0 num_levels rho phi beta lev iv
      = (-1 / ep0) *
        solver (bcFromPeriodicity periodic) (bcFromPeriodicity periodic) beta rho phi
          (1 / 10 ^ 11) 0 lev iv := by
  have he : (1e-11 : ℚ) = 1 / 10 ^ 11 := by norm_num
  have hbc : bcFromPeriodicity periodic
      = fun a => if periodic a = true then LinOpBCType.Periodic
                 else LinOpBCType.Dirichlet := rfl
  simp only [computePhi, he, if_pos h, hbc]
  ring

/-- Witness for C5 at a concrete constant solver on a two-level
hierarchy. -/
theorem computePhi_contract_w :
    (0 : ℕ) < 2 ∧
    computePhi (fun _ _ _ _ _ _ _ => fun _ _ => 3) (fun a => a = 0) 2 2
        (fun _ _ => 0) (fun _ _ => 0) (fun _ => 0) 0 ivZero
      = (-1 / 2) *
        (fun _ _ _ _ _ _ _ => fun _ _ => (3 : ℚ) : Solver)
          (bcFromPeriodicity (fun a => a = 0)) (bcFromPeriodicity (fun a => a = 0))
          (fun _ => 0) (fun _ _ => 0) (fun _ _ => 0) (1 / 10 ^ 11) 0 0 ivZero :=
  ⟨by decide,
   computePhi_contract (fun _ _ _ _ _ _ _ => fun _ _ => 3) (fun a => a = 0) 2 2
     (fun _ _ => 0) (fun _ _ => 0) (fun _ => 0) 0 ivZero (by decide)⟩

/-- C6: on azimuthally symmetric (RZ) geometry, space-charge
initialization aborts with the source's message for every collaborator
and every input field state: no updated field state is produced, so no
grid is allocated, no charge deposited and no field grid mutated. -/
theorem initSpaceChargeField_rz_aborts (max_level : ℕ) (depositCharge : ℕ → Grid)
    (meanParticleVelocity : Fin 3 → ℚ) (c_light : ℚ) (solver : Solver)
    (periodic : Fin 3 → Bool) (ep0 : ℚ) (inv : ℕ → Fin 3 → ℚ)
    (tb : ℕ → Fin 3 → Box3) (Efield_fp : ℕ → Fin 3 → Grid) :
    InitSpaceChargeField true max_level depositCharge meanParticleVelocity c_light
        solver periodic ep0 inv tb Efield_fp
      = Except.error "The initialization of space-charge field has not yet been implemented in RZ geometry." :=
  rfl

/-- C10 (refuted): the potential is allocated as a nodal grid with zero
guard cells, yet the reconstruction stencil's transverse reads leave that
box: on the domain cells `[0,3]^3`, Ex's iteration range contains
`(0,0,0)`, whose stencil reads `phi` at `(0,-1,0)` — outside the
allocated level-0 potential box `[0,4]^3`. -/
theorem phi_stencil_out_of_bounds :
    ¬ stencilReadsInBounds (Box3.mk (fun _ => 0) (fun _ => 3)) := by
  intro h
  have h1 := h 0 ivZero (by decide) (shift ivZero 1 (-1)) (by decide)
  exact absurd h1 (by decide)
